import Mathlib

/-!
Shallow embedding of `src/lib/browser/objects-registry.js`: a reference
counted registry of remote objects.  JavaScript objects used as maps
(`this.storage`, `this.owners`, `this.contexts`, the hidden `atomId`
values managed by `v8_util`) are modelled as association lists with
unique keys; `Set` is modelled as a duplicate-free list that keeps
insertion order; JavaScript numbers holding reference counts are
modelled as `Int` (the code decrements unconditionally), and ids as
`Nat`.  Event-listener registration on a `webContents` is modelled by
explicit listener lists inside the state, and `emit` replays the
subscribed listeners in subscription order against a snapshot of the
listener list, as Node's `EventEmitter` does.
-/

section MapHelpers

variable {α β : Type} [DecidableEq α]

/-- Lookup in an association list (first match, as a JS object has unique keys). -/
def mlookup : List (α × β) → α → Option β
  | [], _ => none
  | kv :: t, k => if kv.1 = k then some kv.2 else mlookup t k

/-- Assignment `m[k] = v` on a JS object: replace the binding if the key is
present, otherwise append a new binding. -/
def minsert : List (α × β) → α → β → List (α × β)
  | [], k, v => [(k, v)]
  | kv :: t, k, v => if kv.1 = k then (k, v) :: t else kv :: minsert t k v

/-- The JS `delete m[k]`: drop every binding of the key. -/
def merase : List (α × β) → α → List (α × β)
  | [], _ => []
  | kv :: t, k => if kv.1 = k then merase t k else kv :: merase t k

/-- Removing the first occurrence of an element, as
`EventEmitter.removeListener` drops the one subscribed closure. -/
def removeFirst [DecidableEq β] : List β → β → List β
  | [], _ => []
  | a :: t, x => if a = x then t else a :: removeFirst t x

end MapHelpers

/-- The endpoint collaborator: a `webContents`, with its stable `id` and the
process id that `getProcessId()` currently reports. -/
structure WebContents where
  id : Nat
  processId : Nat
deriving DecidableEq

/-- An owner key is the template string `` `${x.id}-${pid}` ``.  The first
component is `x.id`; it renders as the decimal id when `x` is a
`webContents`, and as the string `undefined` (modelled by `none`) when a
plain number is passed where the object was expected, since a JS number has
no `id` property. -/
structure OwnerKey where
  wcId : Option Nat
  pid : Nat
deriving DecidableEq

/-- A handle-store entry `{count, object}`.  Objects are identified by a
`Nat` identity; `count` is a JS number, decremented unconditionally by
`dereference`, hence `Int`. -/
structure Pointer where
  count : Int
  object : Nat
deriving DecidableEq

/-- An owner record `{contextId, storageSet}`. -/
structure Owner where
  contextId : Nat
  storageSet : List Nat
deriving DecidableEq

/-- A migration-table entry `{oldOwnerKey, newOwnerKey}`. -/
structure MigrationEntry where
  oldOwnerKey : OwnerKey
  newOwnerKey : OwnerKey
deriving DecidableEq

/-- The data a subscribed listener closure captures: which `webContents` it
is attached to, the `processId` observed at subscription time, and the
`ownerKey`/`contextId` arguments of the registering call. -/
structure RegListener where
  wcId : Nat
  processId : Nat
  ownerKey : OwnerKey
  contextId : Nat
deriving DecidableEq

/-- The whole mutable state of the `ObjectsRegistry` singleton, together
with the listener lists held by the host's webContents objects. -/
structure RegState where
  nextId : Nat
  storage : List (Nat × Pointer)
  owners : List (OwnerKey × Owner)
  contexts : List (Nat × MigrationEntry)
  tags : List (Nat × Nat)
  deleteListeners : List RegListener
  changeListeners : List RegListener
deriving DecidableEq

/-- The state of the freshly constructed registry. -/
def initState : RegState := ⟨0, [], [], [], [], [], []⟩

/-- `getOwnerKey(webContents)` — the one-argument form used by `add` and
`remove`: `processId` is `undefined`, so the falsy branch is taken and the
key is built from `webContents.id` and `webContents.getProcessId()`. -/
def getOwnerKey (wc : WebContents) : OwnerKey := ⟨some wc.id, wc.processId⟩

/-- The allocation arm of `saveToStorage`: `id = ++this.nextId`, a fresh
entry `{count: 0, object}` and the hidden `atomId` tag on the object. -/
def allocStorage (s : RegState) (o : Nat) : Nat × RegState :=
  let id := s.nextId + 1
  (id, { s with nextId := id,
                storage := minsert s.storage id ⟨0, o⟩,
                tags := minsert s.tags o id })

/-- `saveToStorage(object)`: reuse the hidden `atomId` tag when present and
truthy (ids start at 1, so `0` counts as absent like `undefined`),
otherwise allocate. -/
def saveToStorage (s : RegState) (o : Nat) : Nat × RegState :=
  match mlookup s.tags o with
  | some id => if id = 0 then allocStorage s o else (id, s)
  | none => allocStorage s o

/-- `dereference(id)`: no-op on an unknown id; otherwise decrement, and on
reaching zero clear the object's hidden tag and delete the entry. -/
def dereference (s : RegState) (id : Nat) : RegState :=
  match mlookup s.storage id with
  | none => s
  | some p =>
    if p.count - 1 = 0 then
      { s with storage := merase s.storage id, tags := merase s.tags p.object }
    else
      { s with storage := minsert s.storage id ⟨p.count - 1, p.object⟩ }

/-- `registerDeleteListener`: subscribe a render-view-deleted listener
capturing the current process id. -/
def registerDeleteListener (s : RegState) (wc : WebContents) (k : OwnerKey)
    (c : Nat) : RegState :=
  { s with deleteListeners := s.deleteListeners ++ [⟨wc.id, wc.processId, k, c⟩] }

/-- `registerProcessChangeListener`: subscribe a render-frame-changed
listener capturing the current process id. -/
def registerProcessChangeListener (s : RegState) (wc : WebContents) (k : OwnerKey)
    (c : Nat) : RegState :=
  { s with changeListeners := s.changeListeners ++ [⟨wc.id, wc.processId, k, c⟩] }

/-- The tail of `add`: `if (!owner.storageSet.has(id)) { owner.storageSet.add(id);
this.storage[id].count++ }`.  The JS reads `this.storage[id]` without a
check; when the entry is missing (impossible in reachable states) the
count update is modelled as a no-op where JS would throw. -/
def finishAdd (s : RegState) (k : OwnerKey) (id : Nat) : RegState :=
  match mlookup s.owners k with
  | none => s
  | some ow =>
    if id ∈ ow.storageSet then s
    else
      { s with
        owners := minsert s.owners k ⟨ow.contextId, ow.storageSet ++ [id]⟩,
        storage :=
          match mlookup s.storage id with
          | some p => minsert s.storage id ⟨p.count + 1, p.object⟩
          | none => s.storage }

/-- The reload-without-swap arm of `add`:
`this.owners[ownerKey].contextId = contextId` followed by re-registration
of both listeners. -/
def reloadAdd (s : RegState) (wc : WebContents) (k : OwnerKey) (ow : Owner)
    (c : Nat) (id : Nat) : RegState :=
  let s1 := { s with owners := minsert s.owners k ⟨c, ow.storageSet⟩ }
  let s2 := registerDeleteListener s1 wc k c
  let s3 := registerProcessChangeListener s2 wc k c
  finishAdd s3 k id

/-- The owner-table phase of `add`, after `saveToStorage` produced `id`.
In the migration arm, note that the JS reassigns `owner` to the freshly
created record before executing `delete this.contexts[owner.contextId]`,
so the deletion is keyed by the *new* `contextId` argument, not by the
old context id under which the migration entry is stored. -/
def addOwnerPhase (s : RegState) (wc : WebContents) (c : Nat) (id : Nat) : RegState :=
  match mlookup s.owners (getOwnerKey wc) with
  | none =>
    let s1 := { s with owners := minsert s.owners (getOwnerKey wc) ⟨c, []⟩ }
    let s2 := registerDeleteListener s1 wc (getOwnerKey wc) c
    let s3 := registerProcessChangeListener s2 wc (getOwnerKey wc) c
    finishAdd s3 (getOwnerKey wc) id
  | some ow =>
    if ow.contextId = c then finishAdd s (getOwnerKey wc) id
    else
      match mlookup s.contexts ow.contextId with
      | some ctx =>
        if ctx.oldOwnerKey = getOwnerKey wc then
          let s1 := { s with owners := minsert s.owners ctx.newOwnerKey ⟨c, []⟩,
                             contexts := merase s.contexts c }
          let s2 := registerDeleteListener s1 wc ctx.newOwnerKey c
          let s3 := registerProcessChangeListener s2 wc ctx.newOwnerKey c
          finishAdd s3 ctx.newOwnerKey id
        else reloadAdd s wc (getOwnerKey wc) ow c id
      | none => reloadAdd s wc (getOwnerKey wc) ow c id

/-- `add(webContents, contextId, obj)`: save to storage, resolve the owner,
reference the id, return the id. -/
def add (s : RegState) (wc : WebContents) (c : Nat) (o : Nat) : Nat × RegState :=
  let r := saveToStorage s o
  (r.1, addOwnerPhase r.2 wc c r.1)

/-- `get(id)`: pure lookup of the stored object. -/
def get (s : RegState) (id : Nat) : Option Nat :=
  (mlookup s.storage id).map Pointer.object

/-- `remove(webContents, contextId, id)`: guarded by owner existence and an
exact context-id match; on success delete the id from the owner's set and
dereference it from storage (the dereference is not itself guarded by set
membership). -/
def remove (s : RegState) (wc : WebContents) (c : Nat) (id : Nat) : RegState :=
  let k := getOwnerKey wc
  match mlookup s.owners k with
  | none => s
  | some ow =>
    if ow.contextId = c then
      let s1 := { s with
        owners := minsert s.owners k
          ⟨ow.contextId, ow.storageSet.filter (fun x => decide (x ≠ id))⟩ }
      dereference s1 id
    else s

/-- `clear(ownerKey, contextId)`: no-op unless the owner exists and its
context id matches; then dereference every id in its set, delete the owner
record and delete the migration entry keyed by the context id. -/
def clear (s : RegState) (k : OwnerKey) (c : Nat) : RegState :=
  match mlookup s.owners k with
  | none => s
  | some ow =>
    if ow.contextId = c then
      let s1 := ow.storageSet.foldl dereference s
      { s1 with owners := merase s1.owners k, contexts := merase s1.contexts c }
    else s

/-- Firing `render-frame-changed` with `(oldProcessId, newProcessId)` on the
webContents with the given id.  Each subscribed listener whose captured
process id matches writes a migration entry and unsubscribes itself.  The
listener computes `getOwnerKey(webContents.id, newProcessId)`: the first
argument is the numeric id, whose `id` property is `undefined`, so the new
owner key's id component is `none` (a `newProcessId` of 0 would even make
the JS call `getProcessId()` on a number and throw; the scenarios below use
positive process ids). -/
def emitRenderFrameChanged (s : RegState) (wcId oldPid newPid : Nat) : RegState :=
  (s.changeListeners.filter (fun l => decide (l.wcId = wcId))).foldl
    (fun st l =>
      if oldPid = l.processId then
        match mlookup st.owners l.ownerKey with
        | some _ =>
          { st with
            contexts := minsert st.contexts l.contextId ⟨l.ownerKey, ⟨none, newPid⟩⟩,
            changeListeners := removeFirst st.changeListeners l }
        | none => st
      else st) s

/-- Firing `render-view-deleted` with a deleted process id on the
webContents with the given id: every matching listener unsubscribes itself
and calls `clear(ownerKey, contextId)`. -/
def emitRenderViewDeleted (s : RegState) (wcId pid : Nat) : RegState :=
  (s.deleteListeners.filter (fun l => decide (l.wcId = wcId))).foldl
    (fun st l =>
      if pid = l.processId then
        clear { st with deleteListeners := removeFirst st.deleteListeners l }
          l.ownerKey l.contextId
      else st) s

/-- The handle's live-reference-count as stored, reading an absent entry as
zero. -/
def storageCount (s : RegState) (id : Nat) : Int :=
  match mlookup s.storage id with
  | some p => p.count
  | none => 0

/-- The number of owner records whose referenced set contains the handle. -/
def ownersHolding (s : RegState) (id : Nat) : Nat :=
  s.owners.countP (fun kv => decide (id ∈ kv.2.storageSet))

/-- The effect of one `dereference` on a single storage slot. -/
def derefEntry : Option Pointer → Option Pointer
  | none => none
  | some p => if p.count - 1 = 0 then none else some ⟨p.count - 1, p.object⟩

/-!
Concrete scenarios.  Endpoint `E1` is the webContents with stable id 1,
first backed by process 10 (`P1`) and after the swap by process 20 (`P2`);
`ctxA` is context id 100, `ctxB` is 200, and `objX` is the object with
identity 7.
-/

/-- Endpoint E1 while backed by process P1 = 10. -/
def wcP1 : WebContents := ⟨1, 10⟩

/-- Endpoint E1 after the swap, backed by process P2 = 20. -/
def wcP2 : WebContents := ⟨1, 20⟩

/-- A second endpoint E2 (stable id 2, process 30). -/
def wcE2 : WebContents := ⟨2, 30⟩

/-- A third endpoint E3 (stable id 3, process 40). -/
def wcE3 : WebContents := ⟨3, 40⟩

/-- State after `add(E1 at P1, ctxA, objX)`: handle 1 with count 1. -/
def mig1 : RegState := (add initState wcP1 100 7).2

/-- State after the swap notification `process_changed(P1, P2)` fired on E1. -/
def mig2 : RegState := emitRenderFrameChanged mig1 1 10 20

/-- State after the migrated registration `add(E1 at P2, ctxA, objX)`. -/
def mig3 : RegState := (add mig2 wcP2 100 7).2

/-- State after a confirming registration carrying a fresh context id while
the webContents still reports the old process id — the add call that
actually reaches the reconciliation arm of the code. -/
def mig3b : RegState := (add mig2 wcP1 200 7).2

/-- State after registering objX (7) for E1 and a second object 8 for E2. -/
def s9b : RegState := (add (add initState wcP1 100 7).2 wcE2 200 8).2

/-- State after the first `remove(E1, ctxA, 1)`: count dropped to 0, entry freed. -/
def c9r1 : RegState := remove s9b wcP1 100 1

/-- State after the second, double-releasing `remove(E1, ctxA, 1)`. -/
def c9r2 : RegState := remove c9r1 wcP1 100 1

/-- First repetition of `add(E1 at P1, ctxB, objX)` in a state holding a
pending migration entry whose old owner key is E1's key. -/
def c5a : Nat × RegState := add mig2 wcP1 200 7

/-- Second, identical repetition of the same `add` call. -/
def c5b : Nat × RegState := add c5a.2 wcP1 200 7

/-- The number of records in an owner table whose set contains the handle. -/
def holdersOf (l : List (OwnerKey × Owner)) (id : Nat) : Nat :=
  l.countP (fun kv => decide (id ∈ kv.2.storageSet))

/-- The inductive invariant of the registry under well-bracketed traces:
the migration table is empty (no swap events occur in the traces under
study), all three JS objects have unique keys, owner sets are
duplicate-free, the identity tags and the store agree, every id ever
allocated is bounded by the counter, and every handle's stored count
equals the number of owner records referencing it. -/
structure SInv (s : RegState) : Prop where
  ctxNil : s.contexts = []
  okeys : (s.owners.map Prod.fst).Nodup
  skeys : (s.storage.map Prod.fst).Nodup
  tkeys : (s.tags.map Prod.fst).Nodup
  setsNodup : ∀ k ow, mlookup s.owners k = some ow → ow.storageSet.Nodup
  tagStore : ∀ ob id, mlookup s.tags ob = some id →
    ∃ p, mlookup s.storage id = some p ∧ p.object = ob
  tagPos : ∀ ob id, mlookup s.tags ob = some id → 1 ≤ id ∧ id ≤ s.nextId
  storeBound : ∀ id p, mlookup s.storage id = some p → id ≤ s.nextId
  setBound : ∀ k ow id, mlookup s.owners k = some ow → id ∈ ow.storageSet →
    id ≤ s.nextId
  counts : ∀ id, storageCount s id = (ownersHolding s id : Int)

/-- States reachable from the fresh registry by any sequence of `add`,
`remove` and `clear` calls. -/
inductive Reach : RegState → Prop where
  | init : Reach initState
  | step_add (s : RegState) (wc : WebContents) (c o : Nat) :
      Reach s → Reach (add s wc c o).2
  | step_remove (s : RegState) (wc : WebContents) (c id : Nat) :
      Reach s → Reach (remove s wc c id)
  | step_clear (s : RegState) (k : OwnerKey) (c : Nat) :
      Reach s → Reach (clear s k c)

/-- States reachable from the fresh registry by `add`, `remove` and `clear`
calls in which every `remove` that passes the owner-and-context check names
a handle currently in that owner's referenced set. -/
inductive GoodReach : RegState → Prop where
  | init : GoodReach initState
  | step_add (s : RegState) (wc : WebContents) (c o : Nat) :
      GoodReach s → GoodReach (add s wc c o).2
  | step_remove (s : RegState) (wc : WebContents) (c id : Nat) :
      GoodReach s →
      (∀ ow, mlookup s.owners (getOwnerKey wc) = some ow → ow.contextId = c →
        id ∈ ow.storageSet) →
      GoodReach (remove s wc c id)
  | step_clear (s : RegState) (k : OwnerKey) (c : Nat) :
      GoodReach s → GoodReach (clear s k c)

/-- State after E1 and a second endpoint E2 both registered objX (7). -/
def cexA2 : RegState := (add mig1 wcE2 200 7).2

/-- State after a third endpoint E3 also registered objX: count 3. -/
def cexA3 : RegState := (add cexA2 wcE3 300 7).2

/-- State after `remove(E1, ctxA, 1)`: E1 released its reference. -/
def cexR1 : RegState := remove cexA3 wcP1 100 1

/-- State after a second `remove(E1, ctxA, 1)`: E1's set no longer holds
handle 1, but the guard passes and the count is decremented anyway. -/
def cexR2 : RegState := remove cexR1 wcP1 100 1

/-- C2, counterexample.  In the migration scenario the second `add` does
not leave objX's live-reference-count at 1 and does not discard the old
owner record: the count becomes 2 and the record for E1-at-P1 is still
present. -/
theorem migration_scenario_counterexample :
    (add mig2 wcP2 100 7).1 = 1 ∧
    storageCount mig3 1 ≠ 1 ∧
    mlookup mig3.owners (getOwnerKey wcP1) ≠ none := by
  refine ⟨by decide, by decide, by decide⟩

/-- C2, amended.  In the migration scenario the second `add` returns the
same handle 1 and `get` still yields objX, but it installs a fresh owner
record under the new owner key (the migration entry, keyed by the new
owner key, is never consulted), the live-reference-count rises to 2, and
the old owner record is retained. -/
theorem migration_scenario_actual :
    (add mig2 wcP2 100 7).1 = 1 ∧
    get mig3 1 = some 7 ∧
    storageCount mig3 1 = 2 ∧
    mlookup mig3.owners (getOwnerKey wcP2) = some ⟨100, [1]⟩ ∧
    mlookup mig3.owners (getOwnerKey wcP1) = some ⟨100, [1]⟩ := by
  refine ⟨by decide, by decide, by decide, by decide, by decide⟩

/-- C3.  The confirming registration after a swap creates the new owner
record under the migration entry's recorded new owner key, but the
migration entry itself — keyed by the old context id 100 — survives the
call: the code deletes `contexts[owner.contextId]` after reassigning
`owner`, so it deletes under the new context id 200 instead. -/
theorem migration_entry_retained_after_confirm :
    mlookup mig2.contexts 100 = some ⟨getOwnerKey wcP1, ⟨none, 20⟩⟩ ∧
    mlookup mig3b.owners ⟨none, 20⟩ = some ⟨200, [1]⟩ ∧
    mlookup mig3b.contexts 100 = some ⟨getOwnerKey wcP1, ⟨none, 20⟩⟩ := by
  refine ⟨by decide, by decide, by decide⟩

/-- C4.  The swap listener fires, records the current owner key as the old
owner key and unsubscribes itself, but the new owner key it writes is
built from `undefined` (the listener passes `webContents.id`, a number,
where `getOwnerKey` expects the webContents object), not from the
endpoint's stable id 1 with the new process id 20. -/
theorem swap_listener_writes_malformed_new_key :
    mlookup mig2.contexts 100 = some ⟨getOwnerKey wcP1, ⟨none, 20⟩⟩ ∧
    mig2.changeListeners = [] ∧
    (⟨none, 20⟩ : OwnerKey) ≠ getOwnerKey wcP2 := by
  refine ⟨by decide, by decide, by decide⟩

/-- C9.  Double release through `remove` is harmless: the first remove
frees handle 1, the second leaves the whole state unchanged, `get(1)` is
absent both times, and the unrelated handle 2 keeps its entry. -/
theorem double_remove_noop :
    (add initState wcP1 100 7).1 = 1 ∧
    mlookup c9r1.storage 1 = none ∧
    c9r2 = c9r1 ∧
    get c9r2 1 = none ∧
    mlookup c9r2.storage 2 = some ⟨1, 8⟩ := by
  refine ⟨by decide, by decide, by decide, by decide, by decide⟩

/-- C5, counterexample.  With a pending migration entry for the owner's
context id, a second textually identical `add` is not idempotent: both
calls return handle 1, but the second overwrites the migrated owner
record with an empty set and increments the count again, from 2 to 3. -/
theorem add_twice_counterexample :
    c5a.1 = 1 ∧ c5b.1 = 1 ∧
    storageCount c5a.2 1 = 2 ∧
    storageCount c5b.2 1 = 3 ∧
    c5b.2 ≠ c5a.2 := by
  refine ⟨by decide, by decide, by decide, by decide, by decide⟩

section MapLemmas

variable {α β : Type} [DecidableEq α]

theorem mlookup_minsert_self (l : List (α × β)) (k : α) (v : β) :
    mlookup (minsert l k v) k = some v := by
  induction l with
  | nil => simp [minsert, mlookup]
  | cons kv t ih => by_cases h : kv.1 = k <;> simp [minsert, mlookup, h, ih]

theorem mlookup_minsert_ne (l : List (α × β)) (k k' : α) (v : β) (hne : k' ≠ k) :
    mlookup (minsert l k v) k' = mlookup l k' := by
  induction l with
  | nil => simp [minsert, mlookup, Ne.symm hne]
  | cons kv t ih =>
    by_cases h : kv.1 = k
    · simp [minsert, mlookup, h, Ne.symm hne]
    · by_cases h2 : kv.1 = k' <;> simp [minsert, mlookup, h, h2, hne, ih]

theorem mlookup_merase_self (l : List (α × β)) (k : α) :
    mlookup (merase l k) k = none := by
  induction l with
  | nil => simp [merase, mlookup]
  | cons kv t ih => by_cases h : kv.1 = k <;> simp [merase, mlookup, h, ih]

theorem mlookup_merase_ne (l : List (α × β)) (k k' : α) (hne : k' ≠ k) :
    mlookup (merase l k) k' = mlookup l k' := by
  induction l with
  | nil => simp [merase]
  | cons kv t ih =>
    by_cases h : kv.1 = k
    · simp [merase, mlookup, h, Ne.symm hne, ih]
    · by_cases h2 : kv.1 = k' <;> simp [merase, mlookup, h, h2, hne, ih]

theorem merase_eq_of_none (l : List (α × β)) (k : α) (h : mlookup l k = none) :
    merase l k = l := by
  induction l with
  | nil => rfl
  | cons kv t ih =>
    by_cases h1 : kv.1 = k
    · simp [mlookup, h1] at h
    · simp [mlookup, h1] at h
      simp [merase, h1, ih h]

theorem merase_minsert (l : List (α × β)) (k : α) (v : β) :
    merase (minsert l k v) k = merase l k := by
  induction l with
  | nil => simp [minsert, merase]
  | cons kv t ih => by_cases h : kv.1 = k <;> simp [minsert, merase, h, ih]

theorem mlookup_mem {l : List (α × β)} {k : α} {v : β} (h : mlookup l k = some v) :
    (k, v) ∈ l := by
  induction l with
  | nil => simp [mlookup] at h
  | cons kv t ih =>
    obtain ⟨a, b⟩ := kv
    by_cases h1 : a = k
    · subst h1
      simp [mlookup] at h
      simp [h]
    · simp [mlookup, h1] at h
      exact List.mem_cons_of_mem _ (ih h)

theorem mlookup_eq_none_iff (l : List (α × β)) (k : α) :
    mlookup l k = none ↔ k ∉ l.map Prod.fst := by
  induction l with
  | nil => simp [mlookup]
  | cons kv t ih =>
    by_cases h : kv.1 = k
    · simp [mlookup, h]
    · simp [mlookup, h, ih, Ne.symm h]

theorem mem_keys_minsert (l : List (α × β)) (k : α) (v : β) (x : α) :
    x ∈ (minsert l k v).map Prod.fst ↔ x = k ∨ x ∈ l.map Prod.fst := by
  induction l with
  | nil => simp [minsert]
  | cons kv t ih =>
    by_cases h : kv.1 = k
    · subst h
      simp [minsert]
    · simp only [minsert, if_neg h, List.map_cons, List.mem_cons, ih]
      tauto

theorem keys_minsert_nodup (l : List (α × β)) (k : α) (v : β)
    (h : (l.map Prod.fst).Nodup) : ((minsert l k v).map Prod.fst).Nodup := by
  induction l with
  | nil => simp [minsert]
  | cons kv t ih =>
    simp only [List.map_cons, List.nodup_cons] at h
    by_cases h1 : kv.1 = k
    · subst h1
      simpa [minsert] using h
    · simp only [minsert, if_neg h1, List.map_cons, List.nodup_cons]
      constructor
      · intro hx
        rcases (mem_keys_minsert t k v kv.1).1 hx with hc | hc
        · exact h1 hc
        · exact h.1 hc
      · exact ih h.2

theorem merase_sublist (l : List (α × β)) (k : α) : (merase l k).Sublist l := by
  induction l with
  | nil => simp [merase]
  | cons kv t ih =>
    by_cases h : kv.1 = k
    · simp [merase, h]
      exact ih.cons _
    · simp [merase, h]
      exact ih

theorem keys_merase_nodup (l : List (α × β)) (k : α)
    (h : (l.map Prod.fst).Nodup) : ((merase l k).map Prod.fst).Nodup :=
  ((merase_sublist l k).map Prod.fst).nodup h

theorem countP_minsert (l : List (α × β)) (k : α) (v w : β) (p : α × β → Bool)
    (hk : mlookup l k = some w) :
    (minsert l k v).countP p + (if p (k, w) then 1 else 0)
      = l.countP p + (if p (k, v) then 1 else 0) := by
  induction l with
  | nil => simp [mlookup] at hk
  | cons kv t ih =>
    by_cases h : kv.1 = k
    · obtain ⟨a, b⟩ := kv
      simp at h
      subst h
      simp [mlookup] at hk
      subst hk
      simp [minsert, List.countP_cons]
      omega
    · simp [mlookup, h] at hk
      simp [minsert, h, List.countP_cons]
      have := ih hk
      omega

theorem countP_minsert_new (l : List (α × β)) (k : α) (v : β) (p : α × β → Bool)
    (hk : mlookup l k = none) :
    (minsert l k v).countP p = l.countP p + (if p (k, v) then 1 else 0) := by
  induction l with
  | nil => simp [minsert, List.countP_cons]
  | cons kv t ih =>
    by_cases h : kv.1 = k
    · simp [mlookup, h] at hk
    · simp [mlookup, h] at hk
      simp [minsert, h, List.countP_cons, ih hk]
      omega

theorem countP_merase (l : List (α × β)) (k : α) (w : β) (p : α × β → Bool)
    (hnd : (l.map Prod.fst).Nodup) (hk : mlookup l k = some w) :
    (merase l k).countP p + (if p (k, w) then 1 else 0) = l.countP p := by
  induction l with
  | nil => simp [mlookup] at hk
  | cons kv t ih =>
    simp only [List.map_cons, List.nodup_cons] at hnd
    by_cases h : kv.1 = k
    · obtain ⟨a, b⟩ := kv
      simp only at h
      subst h
      simp [mlookup] at hk
      subst hk
      have hnone : mlookup t a = none := (mlookup_eq_none_iff t a).2 hnd.1
      simp [merase, merase_eq_of_none t a hnone, List.countP_cons]
    · simp [mlookup, h] at hk
      simp [merase, h, List.countP_cons]
      have := ih hnd.2 hk
      omega

theorem countP_pos_of_lookup (l : List (α × β)) (k : α) (w : β) (p : α × β → Bool)
    (hk : mlookup l k = some w) (hp : p (k, w) = true) : 0 < l.countP p :=
  List.countP_pos_iff.2 ⟨(k, w), mlookup_mem hk, hp⟩

end MapLemmas

theorem dereference_owners (s : RegState) (id : Nat) :
    (dereference s id).owners = s.owners := by
  unfold dereference
  cases mlookup s.storage id with
  | none => rfl
  | some p => by_cases hc : p.count - 1 = 0 <;> simp [hc]

theorem dereference_contexts (s : RegState) (id : Nat) :
    (dereference s id).contexts = s.contexts := by
  unfold dereference
  cases mlookup s.storage id with
  | none => rfl
  | some p => by_cases hc : p.count - 1 = 0 <;> simp [hc]

theorem dereference_nextId (s : RegState) (id : Nat) :
    (dereference s id).nextId = s.nextId := by
  unfold dereference
  cases mlookup s.storage id with
  | none => rfl
  | some p => by_cases hc : p.count - 1 = 0 <;> simp [hc]

theorem dereference_deleteListeners (s : RegState) (id : Nat) :
    (dereference s id).deleteListeners = s.deleteListeners := by
  unfold dereference
  cases mlookup s.storage id with
  | none => rfl
  | some p => by_cases hc : p.count - 1 = 0 <;> simp [hc]

theorem dereference_changeListeners (s : RegState) (id : Nat) :
    (dereference s id).changeListeners = s.changeListeners := by
  unfold dereference
  cases mlookup s.storage id with
  | none => rfl
  | some p => by_cases hc : p.count - 1 = 0 <;> simp [hc]

theorem dereference_storage (s : RegState) (id : Nat) :
    mlookup (dereference s id).storage id = derefEntry (mlookup s.storage id) := by
  unfold dereference derefEntry
  cases h : mlookup s.storage id with
  | none => simp [h]
  | some p =>
    by_cases hc : p.count - 1 = 0
    · simp [hc, mlookup_merase_self]
    · simp [hc, mlookup_minsert_self]

theorem dereference_storage_ne (s : RegState) (id id' : Nat) (h : id' ≠ id) :
    mlookup (dereference s id).storage id' = mlookup s.storage id' := by
  unfold dereference
  cases hs : mlookup s.storage id with
  | none => rfl
  | some p =>
    by_cases hc : p.count - 1 = 0
    · simp [hc, mlookup_merase_ne _ _ _ h]
    · simp [hc, mlookup_minsert_ne _ _ _ _ h]

theorem dereference_tags_cases (s : RegState) (id : Nat) :
    (dereference s id).tags = s.tags ∨
    ∃ p, mlookup s.storage id = some p ∧
      (dereference s id).tags = merase s.tags p.object := by
  unfold dereference
  cases hs : mlookup s.storage id with
  | none => exact Or.inl rfl
  | some p =>
    by_cases hc : p.count - 1 = 0
    · exact Or.inr ⟨p, rfl, by simp [hc]⟩
    · exact Or.inl (by simp [hc])

theorem dereference_tags_subset (s : RegState) (id ob v : Nat)
    (h : mlookup (dereference s id).tags ob = some v) : mlookup s.tags ob = some v := by
  rcases dereference_tags_cases s id with he | ⟨p, _, he⟩
  · rwa [he] at h
  · rw [he] at h
    by_cases ho : ob = p.object
    · subst ho
      rw [mlookup_merase_self] at h
      cases h
    · rwa [mlookup_merase_ne _ _ _ ho] at h

theorem dereference_tags_none (s : RegState) (id ob : Nat)
    (h : mlookup s.tags ob = none) : mlookup (dereference s id).tags ob = none := by
  cases hv : mlookup (dereference s id).tags ob with
  | none => rfl
  | some v => rw [dereference_tags_subset s id ob v hv] at h; cases h

/-- C6.  One `dereference` step on an entry whose count is 1 deletes the
store entry and clears the object's identity tag together; `get` then
returns absent, and a subsequent `add` of the same object returns the
handle `nextId + 1`, strictly greater than any previously returned handle
(every handle the registry has handed out is bounded by `nextId`, which
the hypothesis `hb` records for the handle under comparison). -/
theorem deref_frees_and_next_handle_greater
    (s : RegState) (id : Nat) (p : Pointer) (hprev : Nat) (wc : WebContents) (c : Nat)
    (hs : mlookup s.storage id = some p) (hc : p.count = 1) (hb : hprev ≤ s.nextId) :
    mlookup (dereference s id).storage id = none ∧
    mlookup (dereference s id).tags p.object = none ∧
    get (dereference s id) id = none ∧
    (add (dereference s id) wc c p.object).1 = s.nextId + 1 ∧
    hprev < (add (dereference s id) wc c p.object).1 := by
  have hfree : dereference s id =
      { s with storage := merase s.storage id, tags := merase s.tags p.object } := by
    unfold dereference
    rw [hs]
    simp [hc]
  have h1 : mlookup (dereference s id).storage id = none := by
    rw [hfree]
    exact mlookup_merase_self _ _
  have h2 : mlookup (dereference s id).tags p.object = none := by
    rw [hfree]
    exact mlookup_merase_self _ _
  have h4 : (add (dereference s id) wc c p.object).1 = s.nextId + 1 := by
    show (saveToStorage (dereference s id) p.object).1 = s.nextId + 1
    unfold saveToStorage
    rw [h2]
    show (dereference s id).nextId + 1 = s.nextId + 1
    rw [dereference_nextId]
  refine ⟨h1, h2, ?_, h4, ?_⟩
  · show (mlookup (dereference s id).storage id).map Pointer.object = none
    rw [h1]
    rfl
  · omega

/-- C6, witness at the one-handle state `mig1`. -/
theorem deref_frees_and_next_handle_greater_witness :
    mlookup (dereference mig1 1).storage 1 = none ∧
    mlookup (dereference mig1 1).tags 7 = none ∧
    get (dereference mig1 1) 1 = none ∧
    (add (dereference mig1 1) wcP1 100 7).1 = mig1.nextId + 1 ∧
    1 < (add (dereference mig1 1) wcP1 100 7).1 :=
  deref_frees_and_next_handle_greater mig1 1 ⟨1, 7⟩ 1 wcP1 100 (by decide) (by decide)
    (by decide)

/-- C8.  `remove` is a strict no-op — the whole state is unchanged — when
no owner record exists for the endpoint's owner key or when the stored
context id differs from the supplied one; when both checks pass it
dereferences the handle in storage. -/
theorem remove_guard_behavior (s : RegState) (wc : WebContents) (c : Nat) (id : Nat) :
    (mlookup s.owners (getOwnerKey wc) = none → remove s wc c id = s) ∧
    (∀ ow, mlookup s.owners (getOwnerKey wc) = some ow → ow.contextId ≠ c →
      remove s wc c id = s) ∧
    (∀ ow, mlookup s.owners (getOwnerKey wc) = some ow → ow.contextId = c →
      mlookup (remove s wc c id).storage id = derefEntry (mlookup s.storage id)) := by
  refine ⟨?_, ?_, ?_⟩
  · intro h
    simp [remove, h]
  · intro ow h hne
    simp [remove, h, hne]
  · intro ow h hc
    simp [remove, h, hc, dereference_storage]

/-- C8, witness: a mismatched owner key is ignored, a matching one
dereferences. -/
theorem remove_guard_behavior_witness :
    remove mig1 wcP2 100 1 = mig1 ∧
    mlookup (remove mig1 wcP1 100 1).storage 1 = derefEntry (mlookup mig1.storage 1) :=
  ⟨(remove_guard_behavior mig1 wcP2 100 1).1 (by decide),
   (remove_guard_behavior mig1 wcP1 100 1).2.2 ⟨100, [1]⟩ (by decide) rfl⟩

/-- C10.  When the owner exists and its context id matches, `remove`
dereferences the handle in storage even though the handle is not in that
owner's referenced set; the owner's record itself is left unchanged. -/
theorem remove_derefs_without_membership (s : RegState) (wc : WebContents)
    (c : Nat) (id : Nat) (ow : Owner)
    (h : mlookup s.owners (getOwnerKey wc) = some ow)
    (hc : ow.contextId = c) (hm : id ∉ ow.storageSet) :
    mlookup (remove s wc c id).storage id = derefEntry (mlookup s.storage id) ∧
    mlookup (remove s wc c id).owners (getOwnerKey wc) = some ow := by
  have hf : ow.storageSet.filter (fun x => decide (x ≠ id)) = ow.storageSet := by
    apply List.filter_eq_self.2
    intro a ha
    simp only [decide_eq_true_eq]
    exact fun he => hm (he ▸ ha)
  constructor
  · simp [remove, h, hc, dereference_storage]
  · simp only [remove, h, hc, if_true]
    rw [dereference_owners]
    show mlookup (minsert s.owners (getOwnerKey wc) _) _ = _
    rw [hf, mlookup_minsert_self, ← hc]

/-- C10, witness: in the post-double-release state `c9r1` the record for E1
has an empty set, yet `remove(E1, ctxA, 2)` dereferences and frees handle
2, which only E2 holds. -/
theorem remove_derefs_without_membership_witness :
    mlookup (remove c9r1 wcP1 100 2).storage 2 = derefEntry (mlookup c9r1.storage 2) ∧
    mlookup (remove c9r1 wcP1 100 2).owners (getOwnerKey wcP1) = some ⟨100, []⟩ :=
  remove_derefs_without_membership c9r1 wcP1 100 2 ⟨100, []⟩ (by decide) rfl (by decide)

theorem foldl_dereference_owners (l : List Nat) (s : RegState) :
    (l.foldl dereference s).owners = s.owners := by
  induction l generalizing s with
  | nil => rfl
  | cons a t ih => rw [List.foldl_cons, ih, dereference_owners]

theorem foldl_dereference_contexts (l : List Nat) (s : RegState) :
    (l.foldl dereference s).contexts = s.contexts := by
  induction l generalizing s with
  | nil => rfl
  | cons a t ih => rw [List.foldl_cons, ih, dereference_contexts]

theorem foldl_dereference_storage_not_mem (l : List Nat) (s : RegState) (id : Nat)
    (h : id ∉ l) :
    mlookup (l.foldl dereference s).storage id = mlookup s.storage id := by
  induction l generalizing s with
  | nil => rfl
  | cons a t ih =>
    simp only [List.mem_cons, not_or] at h
    rw [List.foldl_cons, ih _ h.2, dereference_storage_ne _ _ _ h.1]

theorem foldl_dereference_storage_mem (l : List Nat) (s : RegState) (id : Nat)
    (hnd : l.Nodup) (h : id ∈ l) :
    mlookup (l.foldl dereference s).storage id = derefEntry (mlookup s.storage id) := by
  induction l generalizing s with
  | nil => cases h
  | cons a t ih =>
    rw [List.nodup_cons] at hnd
    rw [List.foldl_cons]
    by_cases hia : id = a
    · subst hia
      rw [foldl_dereference_storage_not_mem t _ id hnd.1, dereference_storage]
    · rw [List.mem_cons] at h
      rw [ih _ hnd.2 (h.resolve_left hia), dereference_storage_ne _ _ _ hia]

/-- C7.  `clear` is a strict no-op for an unknown owner key or a mismatched
context id.  On a match it deletes the owner record and the migration
entry keyed by the context id, applies exactly one dereference to every
handle in the owner's set, leaves every other handle's entry untouched,
and any handle exclusively held by that owner (count 1) is afterwards not
retrievable through `get`. -/
theorem clear_behavior (s : RegState) (k : OwnerKey) (c : Nat) :
    (mlookup s.owners k = none → clear s k c = s) ∧
    (∀ ow, mlookup s.owners k = some ow → ow.contextId ≠ c → clear s k c = s) ∧
    (∀ ow, mlookup s.owners k = some ow → ow.contextId = c → ow.storageSet.Nodup →
      mlookup (clear s k c).owners k = none ∧
      mlookup (clear s k c).contexts c = none ∧
      (∀ id, id ∈ ow.storageSet →
        mlookup (clear s k c).storage id = derefEntry (mlookup s.storage id)) ∧
      (∀ id, id ∉ ow.storageSet →
        mlookup (clear s k c).storage id = mlookup s.storage id) ∧
      (∀ id p, id ∈ ow.storageSet → mlookup s.storage id = some p → p.count = 1 →
        get (clear s k c) id = none)) := by
  refine ⟨?_, ?_, ?_⟩
  · intro h
    simp [clear, h]
  · intro ow h hne
    simp [clear, h, hne]
  · intro ow h hc hnd
    have hcl : clear s k c =
        { ow.storageSet.foldl dereference s with
          owners := merase (ow.storageSet.foldl dereference s).owners k,
          contexts := merase (ow.storageSet.foldl dereference s).contexts c } := by
      simp [clear, h, hc]
    refine ⟨?_, ?_, ?_, ?_, ?_⟩
    · rw [hcl]
      exact mlookup_merase_self _ _
    · rw [hcl]
      exact mlookup_merase_self _ _
    · intro id hid
      rw [hcl]
      exact foldl_dereference_storage_mem _ _ _ hnd hid
    · intro id hid
      rw [hcl]
      exact foldl_dereference_storage_not_mem _ _ _ hid
    · intro id p hid hp h1
      show (mlookup (clear s k c).storage id).map Pointer.object = none
      rw [hcl]
      show (mlookup ((ow.storageSet.foldl dereference s)).storage id).map Pointer.object = none
      rw [foldl_dereference_storage_mem _ _ _ hnd hid, hp]
      simp [derefEntry, h1]

/-- C7, witness: clearing E2's owner record in `s9b` removes the record and
frees the exclusively held handle 2; an unknown owner key is ignored. -/
theorem clear_behavior_witness :
    clear mig1 ⟨none, 5⟩ 100 = mig1 ∧
    mlookup (clear s9b (getOwnerKey wcE2) 200).owners (getOwnerKey wcE2) = none ∧
    mlookup (clear s9b (getOwnerKey wcE2) 200).storage 2 =
      derefEntry (mlookup s9b.storage 2) ∧
    get (clear s9b (getOwnerKey wcE2) 200) 2 = none :=
  ⟨(clear_behavior mig1 ⟨none, 5⟩ 100).1 (by decide),
   ((clear_behavior s9b (getOwnerKey wcE2) 200).2.2 ⟨200, [2]⟩ (by decide) rfl
      (by decide)).1,
   ((clear_behavior s9b (getOwnerKey wcE2) 200).2.2 ⟨200, [2]⟩ (by decide) rfl
      (by decide)).2.2.1 2 (by decide),
   ((clear_behavior s9b (getOwnerKey wcE2) 200).2.2 ⟨200, [2]⟩ (by decide) rfl
      (by decide)).2.2.2.2 2 ⟨1, 8⟩ (by decide) (by decide) (by decide)⟩

theorem saveToStorage_tag (s : RegState) (o : Nat) :
    mlookup (saveToStorage s o).2.tags o = some (saveToStorage s o).1 := by
  unfold saveToStorage allocStorage
  cases h : mlookup s.tags o with
  | none => simp [mlookup_minsert_self]
  | some id =>
    by_cases h0 : id = 0
    · simp [h0, mlookup_minsert_self]
    · simp [h0, h]

theorem saveToStorage_fst_ne_zero (s : RegState) (o : Nat) :
    (saveToStorage s o).1 ≠ 0 := by
  unfold saveToStorage allocStorage
  cases h : mlookup s.tags o with
  | none => simp
  | some id =>
    by_cases h0 : id = 0
    · simp [h0]
    · simp [h0]

theorem saveToStorage_owners (s : RegState) (o : Nat) :
    (saveToStorage s o).2.owners = s.owners := by
  unfold saveToStorage allocStorage
  cases h : mlookup s.tags o with
  | none => simp
  | some id =>
    by_cases h0 : id = 0
    · simp [h0]
    · simp [h0]

theorem saveToStorage_contexts (s : RegState) (o : Nat) :
    (saveToStorage s o).2.contexts = s.contexts := by
  unfold saveToStorage allocStorage
  cases h : mlookup s.tags o with
  | none => simp
  | some id =>
    by_cases h0 : id = 0
    · simp [h0]
    · simp [h0]

theorem saveToStorage_of_tag (s : RegState) (o id : Nat)
    (h : mlookup s.tags o = some id) (h0 : id ≠ 0) : saveToStorage s o = (id, s) := by
  simp [saveToStorage, h, h0]

theorem finishAdd_of_mem (s : RegState) (k : OwnerKey) (id : Nat) (ow : Owner)
    (h : mlookup s.owners k = some ow) (hm : id ∈ ow.storageSet) :
    finishAdd s k id = s := by
  simp [finishAdd, h, hm]

theorem finishAdd_tags (s : RegState) (k : OwnerKey) (id : Nat) :
    (finishAdd s k id).tags = s.tags := by
  unfold finishAdd
  cases h : mlookup s.owners k with
  | none => rfl
  | some ow =>
    by_cases hm : id ∈ ow.storageSet
    · simp [hm]
    · cases hs : mlookup s.storage id <;> simp [hm, hs]

theorem finishAdd_mem_after (s : RegState) (k : OwnerKey) (id : Nat) (ow : Owner)
    (h : mlookup s.owners k = some ow) :
    ∃ l, mlookup (finishAdd s k id).owners k = some ⟨ow.contextId, l⟩ ∧ id ∈ l := by
  by_cases hm : id ∈ ow.storageSet
  · refine ⟨ow.storageSet, ?_, hm⟩
    rw [finishAdd_of_mem s k id ow h hm, h]
  · refine ⟨ow.storageSet ++ [id], ?_, by simp⟩
    unfold finishAdd
    rw [h]
    simp only [hm, if_neg (by exact hm)]
    cases hs : mlookup s.storage id <;>
      simpa [hs] using mlookup_minsert_self s.owners k ⟨ow.contextId, ow.storageSet ++ [id]⟩

theorem addOwnerPhase_tags (s : RegState) (wc : WebContents) (c id : Nat) :
    (addOwnerPhase s wc c id).tags = s.tags := by
  unfold addOwnerPhase reloadAdd registerDeleteListener registerProcessChangeListener
  cases h : mlookup s.owners (getOwnerKey wc) with
  | none => simp [finishAdd_tags]
  | some ow =>
    by_cases hc : ow.contextId = c
    · simp [hc, finishAdd_tags]
    · simp only [if_neg hc]
      cases hm : mlookup s.contexts ow.contextId with
      | none => simp [finishAdd_tags]
      | some ctx =>
        by_cases ho : ctx.oldOwnerKey = getOwnerKey wc
        · simp [ho, finishAdd_tags]
        · simp [ho, finishAdd_tags]

theorem addOwnerPhase_resolved (s : RegState) (wc : WebContents) (c id : Nat)
    (hctx : s.contexts = []) :
    ∃ l, mlookup (addOwnerPhase s wc c id).owners (getOwnerKey wc) = some ⟨c, l⟩ ∧
      id ∈ l := by
  unfold addOwnerPhase reloadAdd registerDeleteListener registerProcessChangeListener
  cases h : mlookup s.owners (getOwnerKey wc) with
  | none =>
    have := finishAdd_mem_after
      { s with owners := minsert s.owners (getOwnerKey wc) ⟨c, []⟩,
               deleteListeners := s.deleteListeners ++
                 [⟨wc.id, wc.processId, getOwnerKey wc, c⟩],
               changeListeners := s.changeListeners ++
                 [⟨wc.id, wc.processId, getOwnerKey wc, c⟩] }
      (getOwnerKey wc) id ⟨c, []⟩ (by simpa using mlookup_minsert_self _ _ _)
    simpa using this
  | some ow =>
    by_cases hc : ow.contextId = c
    · simp only [hc, if_pos rfl]
      have := finishAdd_mem_after s (getOwnerKey wc) id ow h
      rw [hc] at this
      exact this
    · simp only [if_neg hc]
      have hnone : mlookup s.contexts ow.contextId = none := by
        rw [hctx]
        rfl
      simp only [hnone]
      have := finishAdd_mem_after
        { s with owners := minsert s.owners (getOwnerKey wc) ⟨c, ow.storageSet⟩,
                 deleteListeners := s.deleteListeners ++
                   [⟨wc.id, wc.processId, getOwnerKey wc, c⟩],
                 changeListeners := s.changeListeners ++
                   [⟨wc.id, wc.processId, getOwnerKey wc, c⟩] }
        (getOwnerKey wc) id ⟨c, ow.storageSet⟩ (by simpa using mlookup_minsert_self _ _ _)
      simpa using this

/-- C5, amended.  In any state with an empty migration table, a repeated
`add` with identical endpoint, context id and object returns the same
handle and leaves the whole registry state — reference counts included —
exactly unchanged. -/
theorem add_twice_idempotent_no_migration (s : RegState) (wc : WebContents)
    (c o : Nat) (hctx : s.contexts = []) :
    add (add s wc c o).2 wc c o = ((add s wc c o).1, (add s wc c o).2) := by
  have htag : mlookup (add s wc c o).2.tags o = some (add s wc c o).1 := by
    show mlookup (addOwnerPhase (saveToStorage s o).2 wc c (saveToStorage s o).1).tags o
      = some (saveToStorage s o).1
    rw [addOwnerPhase_tags]
    exact saveToStorage_tag s o
  have h0 : (add s wc c o).1 ≠ 0 := saveToStorage_fst_ne_zero s o
  obtain ⟨l, hl, hmem⟩ :
      ∃ l, mlookup (add s wc c o).2.owners (getOwnerKey wc) = some ⟨c, l⟩ ∧
        (add s wc c o).1 ∈ l := by
    apply addOwnerPhase_resolved
    rw [saveToStorage_contexts]
    exact hctx
  show (let r := saveToStorage (add s wc c o).2 o
        (r.1, addOwnerPhase r.2 wc c r.1)) = ((add s wc c o).1, (add s wc c o).2)
  rw [saveToStorage_of_tag _ _ _ htag h0]
  show ((add s wc c o).1, addOwnerPhase (add s wc c o).2 wc c (add s wc c o).1) = _
  have : addOwnerPhase (add s wc c o).2 wc c (add s wc c o).1 = (add s wc c o).2 := by
    unfold addOwnerPhase
    rw [hl]
    simp only [if_pos rfl]
    exact finishAdd_of_mem _ _ _ _ hl hmem
  rw [this]

/-- C5, witness at the empty initial state. -/
theorem add_twice_idempotent_no_migration_witness :
    add (add initState wcP1 100 7).2 wcP1 100 7
      = ((add initState wcP1 100 7).1, (add initState wcP1 100 7).2) :=
  add_twice_idempotent_no_migration initState wcP1 100 7 rfl

theorem ownersHolding_eq (s : RegState) (id : Nat) :
    ownersHolding s id = holdersOf s.owners id := rfl

theorem storageCount_of_some (s : RegState) (id : Nat) (p : Pointer)
    (h : mlookup s.storage id = some p) : storageCount s id = p.count := by
  simp [storageCount, h]

theorem storageCount_of_none (s : RegState) (id : Nat)
    (h : mlookup s.storage id = none) : storageCount s id = 0 := by
  simp [storageCount, h]

theorem mlookup_eq_of_mem_nodup {α β : Type} [DecidableEq α] {l : List (α × β)}
    {k : α} {v : β} (hnd : (l.map Prod.fst).Nodup) (hm : (k, v) ∈ l) :
    mlookup l k = some v := by
  induction l with
  | nil => cases hm
  | cons kv t ih =>
    simp only [List.map_cons, List.nodup_cons] at hnd
    rcases List.mem_cons.1 hm with he | ht
    · subst he
      simp [mlookup]
    · have hk : kv.1 ≠ k := by
        intro he
        exact hnd.1 (he ▸ List.mem_map_of_mem Prod.fst ht)
      simp [mlookup, hk, ih hnd.2 ht]

theorem holdersOf_minsert (l : List (OwnerKey × Owner)) (k : OwnerKey)
    (ow ow' : Owner) (id : Nat) (hk : mlookup l k = some ow) :
    holdersOf (minsert l k ow') id + (if id ∈ ow.storageSet then 1 else 0)
      = holdersOf l id + (if id ∈ ow'.storageSet then 1 else 0) := by
  have := countP_minsert l k ow' ow (fun kv => decide (id ∈ kv.2.storageSet)) hk
  simpa [holdersOf, decide_eq_true_eq] using this

theorem holdersOf_minsert_new (l : List (OwnerKey × Owner)) (k : OwnerKey)
    (ow' : Owner) (id : Nat) (hk : mlookup l k = none) :
    holdersOf (minsert l k ow') id
      = holdersOf l id + (if id ∈ ow'.storageSet then 1 else 0) := by
  have := countP_minsert_new l k ow' (fun kv => decide (id ∈ kv.2.storageSet)) hk
  simpa [holdersOf, decide_eq_true_eq] using this

theorem holdersOf_merase (l : List (OwnerKey × Owner)) (k : OwnerKey)
    (ow : Owner) (id : Nat) (hnd : (l.map Prod.fst).Nodup)
    (hk : mlookup l k = some ow) :
    holdersOf (merase l k) id + (if id ∈ ow.storageSet then 1 else 0)
      = holdersOf l id := by
  have := countP_merase l k ow (fun kv => decide (id ∈ kv.2.storageSet)) hnd hk
  simpa [holdersOf, decide_eq_true_eq] using this

theorem holdersOf_pos (l : List (OwnerKey × Owner)) (k : OwnerKey) (ow : Owner)
    (id : Nat) (hk : mlookup l k = some ow) (hm : id ∈ ow.storageSet) :
    0 < holdersOf l id :=
  countP_pos_of_lookup l k ow _ hk (decide_eq_true hm)

theorem holdersOf_eq_zero (l : List (OwnerKey × Owner)) (id : Nat)
    (hnd : (l.map Prod.fst).Nodup)
    (h : ∀ k ow, mlookup l k = some ow → id ∉ ow.storageSet) :
    holdersOf l id = 0 := by
  rw [holdersOf, List.countP_eq_zero]
  intro kv hkv
  simp only [decide_eq_true_eq]
  exact h kv.1 kv.2 (mlookup_eq_of_mem_nodup hnd hkv)

theorem sinv_init : SInv initState := by
  refine ⟨rfl, by simp [initState], by simp [initState], by simp [initState],
    ?_, ?_, ?_, ?_, ?_, ?_⟩
  · intro k ow h
    simp [initState, mlookup] at h
  · intro ob id h
    simp [initState, mlookup] at h
  · intro ob id h
    simp [initState, mlookup] at h
  · intro id p h
    simp [initState, mlookup] at h
  · intro k ow id h
    simp [initState, mlookup] at h
  · intro id
    simp [storageCount, ownersHolding, holdersOf, initState, mlookup]

theorem sinv_saveToStorage (s : RegState) (o : Nat) (hs : SInv s) :
    SInv (saveToStorage s o).2 ∧
    ∃ p, mlookup (saveToStorage s o).2.storage (saveToStorage s o).1 = some p ∧
      p.object = o := by
  cases ht : mlookup s.tags o with
  | some id =>
    have h0 : id ≠ 0 := by
      have := (hs.tagPos o id ht).1
      omega
    rw [saveToStorage_of_tag s o id ht h0]
    exact ⟨hs, hs.tagStore o id ht⟩
  | none =>
    have halloc : saveToStorage s o =
        (s.nextId + 1,
         { s with nextId := s.nextId + 1,
                  storage := minsert s.storage (s.nextId + 1) ⟨0, o⟩,
                  tags := minsert s.tags o (s.nextId + 1) }) := by
      simp [saveToStorage, ht, allocStorage]
    rw [halloc]
    have hsn : mlookup s.storage (s.nextId + 1) = none := by
      cases hx : mlookup s.storage (s.nextId + 1) with
      | none => rfl
      | some p =>
        have := hs.storeBound _ p hx
        omega
    refine ⟨⟨hs.ctxNil, hs.okeys, keys_minsert_nodup _ _ _ hs.skeys,
      keys_minsert_nodup _ _ _ hs.tkeys, hs.setsNodup, ?_, ?_, ?_, ?_, ?_⟩,
      ⟨0, o⟩, mlookup_minsert_self _ _ _, rfl⟩
    · intro ob i h
      by_cases hob : ob = o
      · subst hob
        rw [mlookup_minsert_self] at h
        cases h
        exact ⟨⟨0, ob⟩, mlookup_minsert_self _ _ _, rfl⟩
      · rw [mlookup_minsert_ne _ _ _ _ hob] at h
        obtain ⟨p, hp, hpo⟩ := hs.tagStore ob i h
        have hi : i ≠ s.nextId + 1 := by
          have := hs.storeBound i p hp
          omega
        exact ⟨p, by rw [mlookup_minsert_ne _ _ _ _ hi]; exact hp, hpo⟩
    · intro ob i h
      dsimp only
      by_cases hob : ob = o
      · subst hob
        rw [mlookup_minsert_self] at h
        cases h
        omega
      · rw [mlookup_minsert_ne _ _ _ _ hob] at h
        have := hs.tagPos ob i h
        omega
    · intro i p h
      dsimp only
      by_cases hi : i = s.nextId + 1
      · omega
      · rw [mlookup_minsert_ne _ _ _ _ hi] at h
        have := hs.storeBound i p h
        omega
    · intro k ow i hk hm
      dsimp only
      have := hs.setBound k ow i hk hm
      omega
    · intro i
      by_cases hi : i = s.nextId + 1
      · subst hi
        have h1 : storageCount
            { s with nextId := s.nextId + 1,
                     storage := minsert s.storage (s.nextId + 1) ⟨0, o⟩,
                     tags := minsert s.tags o (s.nextId + 1) } (s.nextId + 1)
            = (0 : Int) :=
          storageCount_of_some _ _ ⟨0, o⟩ (mlookup_minsert_self _ _ _)
        rw [h1, ownersHolding_eq]
        have h2 : holdersOf s.owners (s.nextId + 1) = 0 := by
          apply holdersOf_eq_zero _ _ hs.okeys
          intro k ow hk hm
          have := hs.setBound k ow _ hk hm
          omega
        show (0 : Int) = ((holdersOf s.owners (s.nextId + 1) : Nat) : Int)
        rw [h2]
        rfl
      · have h1 : storageCount
            { s with nextId := s.nextId + 1,
                     storage := minsert s.storage (s.nextId + 1) ⟨0, o⟩,
                     tags := minsert s.tags o (s.nextId + 1) } i
            = storageCount s i := by
          unfold storageCount
          rw [show mlookup (minsert s.storage (s.nextId + 1) ⟨0, o⟩) i
            = mlookup s.storage i from mlookup_minsert_ne _ _ _ _ hi]
        rw [h1]
        exact hs.counts i

theorem sinv_finishAdd (s : RegState) (k : OwnerKey) (id : Nat) (hs : SInv s)
    (p0 : Pointer) (hst : mlookup s.storage id = some p0) :
    SInv (finishAdd s k id) := by
  cases ho : mlookup s.owners k with
  | none => simpa [finishAdd, ho] using hs
  | some ow =>
    by_cases hm : id ∈ ow.storageSet
    · simpa [finishAdd, ho, hm] using hs
    · have heq : finishAdd s k id =
          { s with owners := minsert s.owners k ⟨ow.contextId, ow.storageSet ++ [id]⟩,
                   storage := minsert s.storage id ⟨p0.count + 1, p0.object⟩ } := by
        simp [finishAdd, ho, hm, hst]
      rw [heq]
      refine ⟨hs.ctxNil, keys_minsert_nodup _ _ _ hs.okeys,
        keys_minsert_nodup _ _ _ hs.skeys, hs.tkeys, ?_, ?_, hs.tagPos, ?_, ?_, ?_⟩
      · intro k' ow' h'
        by_cases hk : k' = k
        · rw [hk, mlookup_minsert_self] at h'
          cases h'
          have hnd := hs.setsNodup k ow ho
          simp [List.nodup_append, hnd, hm]
        · rw [mlookup_minsert_ne _ _ _ _ hk] at h'
          exact hs.setsNodup _ _ h'
      · intro ob i h
        obtain ⟨q, hq, hqo⟩ := hs.tagStore ob i h
        by_cases hi : i = id
        · subst hi
          have hqp : q = p0 := by
            rw [hq] at hst
            cases hst
            rfl
          subst hqp
          exact ⟨⟨q.count + 1, q.object⟩, mlookup_minsert_self _ _ _, hqo⟩
        · exact ⟨q, by rw [mlookup_minsert_ne _ _ _ _ hi]; exact hq, hqo⟩
      · intro i p h
        by_cases hi : i = id
        · subst hi
          exact hs.storeBound i p0 hst
        · rw [mlookup_minsert_ne _ _ _ _ hi] at h
          exact hs.storeBound i p h
      · intro k' ow' i h' hmem
        by_cases hk : k' = k
        · rw [hk, mlookup_minsert_self] at h'
          cases h'
          rcases List.mem_append.1 hmem with h1 | h2
          · exact hs.setBound k ow i ho h1
          · have : i = id := by simpa using h2
            subst this
            exact hs.storeBound i p0 hst
        · rw [mlookup_minsert_ne _ _ _ _ hk] at h'
          exact hs.setBound _ _ _ h' hmem
      · intro i
        rw [ownersHolding_eq]
        have hcnt := hs.counts i
        rw [ownersHolding_eq] at hcnt
        have hofs := holdersOf_minsert s.owners k ow
          ⟨ow.contextId, ow.storageSet ++ [id]⟩ i ho
        by_cases hi : i = id
        · subst hi
          have h1 : storageCount
              { s with owners := minsert s.owners k ⟨ow.contextId, ow.storageSet ++ [i]⟩,
                       storage := minsert s.storage i ⟨p0.count + 1, p0.object⟩ } i
              = p0.count + 1 :=
            storageCount_of_some _ _ _ (mlookup_minsert_self _ _ _)
          rw [h1]
          have h2 : storageCount s i = p0.count := storageCount_of_some _ _ _ hst
          rw [h2] at hcnt
          show p0.count + 1 =
            ((holdersOf (minsert s.owners k ⟨ow.contextId, ow.storageSet ++ [i]⟩) i) : Int)
          simp [hm] at hofs
          omega
        · have h1 : storageCount
              { s with owners := minsert s.owners k ⟨ow.contextId, ow.storageSet ++ [id]⟩,
                       storage := minsert s.storage id ⟨p0.count + 1, p0.object⟩ } i
              = storageCount s i := by
            unfold storageCount
            rw [show mlookup (minsert s.storage id ⟨p0.count + 1, p0.object⟩) i
              = mlookup s.storage i from mlookup_minsert_ne _ _ _ _ hi]
          rw [h1]
          show storageCount s i =
            ((holdersOf (minsert s.owners k ⟨ow.contextId, ow.storageSet ++ [id]⟩) i) : Int)
          by_cases him : i ∈ ow.storageSet
          · simp [him, hi] at hofs
            omega
          · simp [him, hi] at hofs
            omega

theorem sinv_owner_fresh (s : RegState) (k : OwnerKey) (c : Nat) (hs : SInv s)
    (h : mlookup s.owners k = none) :
    SInv { s with owners := minsert s.owners k ⟨c, []⟩ } := by
  refine ⟨hs.ctxNil, keys_minsert_nodup _ _ _ hs.okeys, hs.skeys, hs.tkeys, ?_,
    hs.tagStore, hs.tagPos, hs.storeBound, ?_, ?_⟩
  · intro k' ow' h'
    by_cases hk : k' = k
    · rw [hk, mlookup_minsert_self] at h'
      cases h'
      exact List.nodup_nil
    · rw [mlookup_minsert_ne _ _ _ _ hk] at h'
      exact hs.setsNodup _ _ h'
  · intro k' ow' i h' hm
    by_cases hk : k' = k
    · rw [hk, mlookup_minsert_self] at h'
      cases h'
      simp at hm
    · rw [mlookup_minsert_ne _ _ _ _ hk] at h'
      exact hs.setBound _ _ _ h' hm
  · intro i
    rw [ownersHolding_eq]
    have hofs := holdersOf_minsert_new s.owners k ⟨c, []⟩ i h
    have hcnt := hs.counts i
    rw [ownersHolding_eq] at hcnt
    show storageCount s i = ((holdersOf (minsert s.owners k ⟨c, []⟩) i) : Int)
    simp at hofs
    omega

theorem sinv_owner_recontext (s : RegState) (k : OwnerKey) (c : Nat) (ow : Owner)
    (hs : SInv s) (h : mlookup s.owners k = some ow) :
    SInv { s with owners := minsert s.owners k ⟨c, ow.storageSet⟩ } := by
  refine ⟨hs.ctxNil, keys_minsert_nodup _ _ _ hs.okeys, hs.skeys, hs.tkeys, ?_,
    hs.tagStore, hs.tagPos, hs.storeBound, ?_, ?_⟩
  · intro k' ow' h'
    by_cases hk : k' = k
    · rw [hk, mlookup_minsert_self] at h'
      cases h'
      exact hs.setsNodup k ow h
    · rw [mlookup_minsert_ne _ _ _ _ hk] at h'
      exact hs.setsNodup _ _ h'
  · intro k' ow' i h' hm
    by_cases hk : k' = k
    · rw [hk, mlookup_minsert_self] at h'
      cases h'
      exact hs.setBound k ow i h hm
    · rw [mlookup_minsert_ne _ _ _ _ hk] at h'
      exact hs.setBound _ _ _ h' hm
  · intro i
    rw [ownersHolding_eq]
    have hofs := holdersOf_minsert s.owners k ow ⟨c, ow.storageSet⟩ i h
    have hcnt := hs.counts i
    rw [ownersHolding_eq] at hcnt
    show storageCount s i = ((holdersOf (minsert s.owners k ⟨c, ow.storageSet⟩) i) : Int)
    by_cases him : i ∈ ow.storageSet
    · simp [him] at hofs
      omega
    · simp [him] at hofs
      omega

theorem sinv_add (s : RegState) (wc : WebContents) (c o : Nat) (hs : SInv s) :
    SInv (add s wc c o).2 := by
  obtain ⟨ht, p, hp, -⟩ := sinv_saveToStorage s o hs
  show SInv (addOwnerPhase (saveToStorage s o).2 wc c (saveToStorage s o).1)
  set T := (saveToStorage s o).2 with hT
  set id0 := (saveToStorage s o).1 with hI
  cases ho : mlookup T.owners (getOwnerKey wc) with
  | none =>
    have harm : addOwnerPhase T wc c id0 = finishAdd
        { T with owners := minsert T.owners (getOwnerKey wc) ⟨c, []⟩,
                 deleteListeners := T.deleteListeners ++
                   [⟨wc.id, wc.processId, getOwnerKey wc, c⟩],
                 changeListeners := T.changeListeners ++
                   [⟨wc.id, wc.processId, getOwnerKey wc, c⟩] }
        (getOwnerKey wc) id0 := by
      simp [addOwnerPhase, ho, registerDeleteListener, registerProcessChangeListener]
    rw [harm]
    have h1 : SInv { T with owners := minsert T.owners (getOwnerKey wc) ⟨c, []⟩ } :=
      sinv_owner_fresh T _ c ht ho
    have h2 : SInv
        { T with owners := minsert T.owners (getOwnerKey wc) ⟨c, []⟩,
                 deleteListeners := T.deleteListeners ++
                   [⟨wc.id, wc.processId, getOwnerKey wc, c⟩],
                 changeListeners := T.changeListeners ++
                   [⟨wc.id, wc.processId, getOwnerKey wc, c⟩] } :=
      ⟨h1.ctxNil, h1.okeys, h1.skeys, h1.tkeys, h1.setsNodup, h1.tagStore, h1.tagPos,
       h1.storeBound, h1.setBound, h1.counts⟩
    exact sinv_finishAdd _ _ _ h2 p hp
  | some ow =>
    by_cases hc : ow.contextId = c
    · have harm : addOwnerPhase T wc c id0 = finishAdd T (getOwnerKey wc) id0 := by
        simp [addOwnerPhase, ho, hc]
      rw [harm]
      exact sinv_finishAdd _ _ _ ht p hp
    · have hnone : mlookup T.contexts ow.contextId = none := by
        rw [ht.ctxNil]
        rfl
      have harm : addOwnerPhase T wc c id0 = finishAdd
          { T with owners := minsert T.owners (getOwnerKey wc) ⟨c, ow.storageSet⟩,
                   deleteListeners := T.deleteListeners ++
                     [⟨wc.id, wc.processId, getOwnerKey wc, c⟩],
                   changeListeners := T.changeListeners ++
                     [⟨wc.id, wc.processId, getOwnerKey wc, c⟩] }
          (getOwnerKey wc) id0 := by
        simp [addOwnerPhase, ho, hc, hnone, reloadAdd, registerDeleteListener,
          registerProcessChangeListener]
      rw [harm]
      have h1 : SInv
          { T with owners := minsert T.owners (getOwnerKey wc) ⟨c, ow.storageSet⟩ } :=
        sinv_owner_recontext T _ c ow ht ho
      have h2 : SInv
          { T with owners := minsert T.owners (getOwnerKey wc) ⟨c, ow.storageSet⟩,
                   deleteListeners := T.deleteListeners ++
                     [⟨wc.id, wc.processId, getOwnerKey wc, c⟩],
                   changeListeners := T.changeListeners ++
                     [⟨wc.id, wc.processId, getOwnerKey wc, c⟩] } :=
        ⟨h1.ctxNil, h1.okeys, h1.skeys, h1.tkeys, h1.setsNodup, h1.tagStore, h1.tagPos,
         h1.storeBound, h1.setBound, h1.counts⟩
      exact sinv_finishAdd _ _ _ h2 p hp

theorem sinv_deref_core (s : RegState) (k : OwnerKey) (ow : Owner) (id : Nat)
    (nset : List Nat) (hs : SInv s) (h : mlookup s.owners k = some ow)
    (hm : id ∈ ow.storageSet)
    (hn : nset = ow.storageSet.filter (fun x => decide (x ≠ id))) :
    SInv (dereference { s with owners := minsert s.owners k ⟨ow.contextId, nset⟩ } id) := by
  have hidn : id ∉ nset := by
    rw [hn]
    simp
  have hsub : ∀ x, x ∈ nset → x ∈ ow.storageSet := by
    rw [hn]
    intro x hx
    exact (List.mem_filter.1 hx).1
  have hmem_iff : ∀ i, i ≠ id → (i ∈ nset ↔ i ∈ ow.storageSet) := by
    rw [hn]
    intro i hi
    simp [List.mem_filter, hi]
  have hnsnd : nset.Nodup := by
    rw [hn]
    exact (hs.setsNodup k ow h).filter _
  have hpos : 0 < holdersOf s.owners id := holdersOf_pos _ k ow id h hm
  have hcnt := hs.counts id
  rw [ownersHolding_eq] at hcnt
  obtain ⟨p, hpl, hpc⟩ :
      ∃ p, mlookup s.storage id = some p ∧ p.count = (holdersOf s.owners id : Int) := by
    cases hx : mlookup s.storage id with
    | none =>
      rw [storageCount_of_none s id hx] at hcnt
      omega
    | some p =>
      refine ⟨p, rfl, ?_⟩
      rw [storageCount_of_some s id p hx] at hcnt
      exact hcnt
  have hpl1 : mlookup
      ({ s with owners := minsert s.owners k ⟨ow.contextId, nset⟩ } : RegState).storage id
      = some p := hpl
  have hofsAt : ∀ i, holdersOf (minsert s.owners k ⟨ow.contextId, nset⟩) i
      + (if i ∈ ow.storageSet then 1 else 0)
      = holdersOf s.owners i + (if i ∈ nset then 1 else 0) := fun i =>
    holdersOf_minsert s.owners k ow ⟨ow.contextId, nset⟩ i h
  by_cases hone : holdersOf s.owners id = 1
  · have hfree : dereference { s with owners := minsert s.owners k ⟨ow.contextId, nset⟩ } id
        = { s with owners := minsert s.owners k ⟨ow.contextId, nset⟩,
                   storage := merase s.storage id,
                   tags := merase s.tags p.object } := by
      unfold dereference
      rw [hpl1]
      have : p.count - 1 = 0 := by
        rw [hpc, hone]
        rfl
      simp [this]
    rw [hfree]
    refine ⟨hs.ctxNil, keys_minsert_nodup _ _ _ hs.okeys, keys_merase_nodup _ _ hs.skeys,
      keys_merase_nodup _ _ hs.tkeys, ?_, ?_, ?_, ?_, ?_, ?_⟩
    · intro k' ow' h'
      by_cases hk : k' = k
      · rw [hk, mlookup_minsert_self] at h'
        cases h'
        exact hnsnd
      · rw [mlookup_minsert_ne _ _ _ _ hk] at h'
        exact hs.setsNodup _ _ h'
    · intro ob i hti
      have hob : ob ≠ p.object := by
        intro he
        rw [he, mlookup_merase_self] at hti
        cases hti
      rw [mlookup_merase_ne _ _ _ hob] at hti
      obtain ⟨q, hq, hqo⟩ := hs.tagStore ob i hti
      have hiid : i ≠ id := by
        intro he
        rw [he, hpl] at hq
        cases hq
        exact hob hqo.symm
      exact ⟨q, by rw [mlookup_merase_ne _ _ _ hiid]; exact hq, hqo⟩
    · intro ob i hti
      by_cases hob : ob = p.object
      · rw [hob, mlookup_merase_self] at hti
        cases hti
      · rw [mlookup_merase_ne _ _ _ hob] at hti
        exact hs.tagPos _ _ hti
    · intro i q hq
      by_cases hi : i = id
      · rw [hi, mlookup_merase_self] at hq
        cases hq
      · rw [mlookup_merase_ne _ _ _ hi] at hq
        exact hs.storeBound _ _ hq
    · intro k' ow' i h' hmem
      by_cases hk : k' = k
      · rw [hk, mlookup_minsert_self] at h'
        cases h'
        exact hs.setBound k ow i h (hsub i hmem)
      · rw [mlookup_minsert_ne _ _ _ _ hk] at h'
        exact hs.setBound _ _ _ h' hmem
    · intro i
      rw [ownersHolding_eq]
      have hofs := hofsAt i
      have hcnti := hs.counts i
      rw [ownersHolding_eq] at hcnti
      by_cases hi : i = id
      · subst hi
        have hsc : storageCount
            { s with owners := minsert s.owners k ⟨ow.contextId, nset⟩,
                     storage := merase s.storage i,
                     tags := merase s.tags p.object } i = 0 :=
          storageCount_of_none _ _ (mlookup_merase_self _ _)
        rw [hsc]
        simp [hm, hidn] at hofs
        show (0 : Int) = ((holdersOf (minsert s.owners k ⟨ow.contextId, nset⟩) i) : Int)
        omega
      · have hsc : storageCount
            { s with owners := minsert s.owners k ⟨ow.contextId, nset⟩,
                     storage := merase s.storage id,
                     tags := merase s.tags p.object } i = storageCount s i := by
          unfold storageCount
          rw [show mlookup (merase s.storage id) i = mlookup s.storage i from
            mlookup_merase_ne _ _ _ hi]
        rw [hsc]
        show storageCount s i =
          ((holdersOf (minsert s.owners k ⟨ow.contextId, nset⟩) i) : Int)
        by_cases him : i ∈ ow.storageSet
        · have hin : i ∈ nset := (hmem_iff i hi).2 him
          simp [him, hin] at hofs
          omega
        · have hin : i ∉ nset := fun hx => him ((hmem_iff i hi).1 hx)
          simp [him, hin] at hofs
          omega
  · have hge : 2 ≤ holdersOf s.owners id := by omega
    have hne : ¬(p.count - 1 = 0) := by
      rw [hpc]
      omega
    have hnf : dereference { s with owners := minsert s.owners k ⟨ow.contextId, nset⟩ } id
        = { s with owners := minsert s.owners k ⟨ow.contextId, nset⟩,
                   storage := minsert s.storage id ⟨p.count - 1, p.object⟩ } := by
      unfold dereference
      rw [hpl1]
      simp [hne]
    rw [hnf]
    refine ⟨hs.ctxNil, keys_minsert_nodup _ _ _ hs.okeys,
      keys_minsert_nodup _ _ _ hs.skeys, hs.tkeys, ?_, ?_, hs.tagPos, ?_, ?_, ?_⟩
    · intro k' ow' h'
      by_cases hk : k' = k
      · rw [hk, mlookup_minsert_self] at h'
        cases h'
        exact hnsnd
      · rw [mlookup_minsert_ne _ _ _ _ hk] at h'
        exact hs.setsNodup _ _ h'
    · intro ob i hti
      obtain ⟨q, hq, hqo⟩ := hs.tagStore ob i hti
      by_cases hi : i = id
      · subst hi
        have hqp : q = p := by
          rw [hq] at hpl
          cases hpl
          rfl
        subst hqp
        exact ⟨⟨q.count - 1, q.object⟩, mlookup_minsert_self _ _ _, hqo⟩
      · exact ⟨q, by rw [mlookup_minsert_ne _ _ _ _ hi]; exact hq, hqo⟩
    · intro i q hq
      by_cases hi : i = id
      · subst hi
        exact hs.storeBound i p hpl
      · rw [mlookup_minsert_ne _ _ _ _ hi] at hq
        exact hs.storeBound _ _ hq
    · intro k' ow' i h' hmem
      by_cases hk : k' = k
      · rw [hk, mlookup_minsert_self] at h'
        cases h'
        exact hs.setBound k ow i h (hsub i hmem)
      · rw [mlookup_minsert_ne _ _ _ _ hk] at h'
        exact hs.setBound _ _ _ h' hmem
    · intro i
      rw [ownersHolding_eq]
      have hofs := hofsAt i
      have hcnti := hs.counts i
      rw [ownersHolding_eq] at hcnti
      by_cases hi : i = id
      · subst hi
        have hsc : storageCount
            { s with owners := minsert s.owners k ⟨ow.contextId, nset⟩,
                     storage := minsert s.storage i ⟨p.count - 1, p.object⟩ } i
            = p.count - 1 :=
          storageCount_of_some _ _ _ (mlookup_minsert_self _ _ _)
        rw [hsc]
        simp [hm, hidn] at hofs
        show p.count - 1 = ((holdersOf (minsert s.owners k ⟨ow.contextId, nset⟩) i) : Int)
        omega
      · have hsc : storageCount
            { s with owners := minsert s.owners k ⟨ow.contextId, nset⟩,
                     storage := minsert s.storage id ⟨p.count - 1, p.object⟩ } i
            = storageCount s i := by
          unfold storageCount
          rw [show mlookup (minsert s.storage id ⟨p.count - 1, p.object⟩) i
            = mlookup s.storage i from mlookup_minsert_ne _ _ _ _ hi]
        rw [hsc]
        show storageCount s i =
          ((holdersOf (minsert s.owners k ⟨ow.contextId, nset⟩) i) : Int)
        by_cases him : i ∈ ow.storageSet
        · have hin : i ∈ nset := (hmem_iff i hi).2 him
          simp [him, hin] at hofs
          omega
        · have hin : i ∉ nset := fun hx => him ((hmem_iff i hi).1 hx)
          simp [him, hin] at hofs
          omega

theorem sinv_remove (s : RegState) (wc : WebContents) (c id : Nat) (hs : SInv s)
    (hgood : ∀ ow, mlookup s.owners (getOwnerKey wc) = some ow → ow.contextId = c →
      id ∈ ow.storageSet) :
    SInv (remove s wc c id) := by
  cases ho : mlookup s.owners (getOwnerKey wc) with
  | none => simpa [remove, ho] using hs
  | some ow =>
    by_cases hc : ow.contextId = c
    · have hrm : remove s wc c id = dereference
          { s with owners := (minsert s.owners (getOwnerKey wc)
              ⟨ow.contextId, ow.storageSet.filter (fun x => decide (x ≠ id))⟩) } id := by
        simp [remove, ho, hc]
      rw [hrm]
      exact sinv_deref_core s _ ow id _ hs ho (hgood ow ho hc) rfl
    · simpa [remove, ho, hc] using hs

theorem dereference_owners_update (s : RegState) (X : List (OwnerKey × Owner))
    (id : Nat) :
    dereference { s with owners := X } id = { dereference s id with owners := X } := by
  unfold dereference
  dsimp only
  cases h : mlookup s.storage id with
  | none => rfl
  | some p => by_cases hc : p.count - 1 = 0 <;> simp [hc]

theorem foldl_dereference_owners_update (l : List Nat) (s : RegState)
    (X : List (OwnerKey × Owner)) :
    l.foldl dereference { s with owners := X }
      = { l.foldl dereference s with owners := X } := by
  induction l generalizing s with
  | nil => rfl
  | cons a t ih =>
    rw [List.foldl_cons, List.foldl_cons, dereference_owners_update, ih]

theorem sinv_clear_fold (l : List Nat) (s : RegState) (k : OwnerKey) (c : Nat)
    (hs : SInv s) (h : mlookup s.owners k = some ⟨c, l⟩) :
    SInv { l.foldl dereference s with
           owners := merase (l.foldl dereference s).owners k,
           contexts := merase (l.foldl dereference s).contexts c } := by
  induction l generalizing s with
  | nil =>
    refine ⟨?_, keys_merase_nodup _ _ hs.okeys, hs.skeys, hs.tkeys, ?_, hs.tagStore,
      hs.tagPos, hs.storeBound, ?_, ?_⟩
    · show merase s.contexts c = []
      rw [hs.ctxNil]
      rfl
    · intro k' ow' h'
      by_cases hk : k' = k
      · rw [hk, mlookup_merase_self] at h'
        cases h'
      · rw [mlookup_merase_ne _ _ _ hk] at h'
        exact hs.setsNodup _ _ h'
    · intro k' ow' i h' hm
      by_cases hk : k' = k
      · rw [hk, mlookup_merase_self] at h'
        cases h'
      · rw [mlookup_merase_ne _ _ _ hk] at h'
        exact hs.setBound _ _ _ h' hm
    · intro i
      rw [ownersHolding_eq]
      have hofs := holdersOf_merase s.owners k ⟨c, []⟩ i hs.okeys h
      have hcnt := hs.counts i
      rw [ownersHolding_eq] at hcnt
      show storageCount s i = ((holdersOf (merase s.owners k) i) : Int)
      simp at hofs
      omega
  | cons a t ih =>
    have hnd := hs.setsNodup k ⟨c, a :: t⟩ h
    rw [List.nodup_cons] at hnd
    have hfil : t = (a :: t).filter (fun x => decide (x ≠ a)) := by
      have h1 : (a :: t).filter (fun x => decide (x ≠ a))
          = t.filter (fun x => decide (x ≠ a)) := by
        simp
      rw [h1]
      refine (List.filter_eq_self.2 ?_).symm
      intro x hx
      simp only [decide_eq_true_eq]
      intro he
      exact hnd.1 (he ▸ hx)
    have hcore : SInv (dereference { s with owners := minsert s.owners k ⟨c, t⟩ } a) :=
      sinv_deref_core s k ⟨c, a :: t⟩ a t hs h (by simp) hfil
    have hlk : mlookup
        (dereference { s with owners := minsert s.owners k ⟨c, t⟩ } a).owners k
        = some ⟨c, t⟩ := by
      rw [dereference_owners]
      exact mlookup_minsert_self _ _ _
    have IH := ih (dereference { s with owners := minsert s.owners k ⟨c, t⟩ } a)
      hcore hlk
    have hcomm : t.foldl dereference
          (dereference { s with owners := minsert s.owners k ⟨c, t⟩ } a)
        = { (a :: t).foldl dereference s with owners := minsert s.owners k ⟨c, t⟩ } := by
      rw [show dereference { s with owners := minsert s.owners k ⟨c, t⟩ } a
        = { dereference s a with owners := minsert s.owners k ⟨c, t⟩ } from
        dereference_owners_update s _ a]
      rw [foldl_dereference_owners_update]
      rw [List.foldl_cons]
    rw [hcomm] at IH
    have hkey : merase (minsert s.owners k ⟨c, t⟩) k
        = merase ((a :: t).foldl dereference s).owners k := by
      rw [merase_minsert, foldl_dereference_owners]
    convert IH using 1
    rw [← hkey]

theorem sinv_clear (s : RegState) (k : OwnerKey) (c : Nat) (hs : SInv s) :
    SInv (clear s k c) := by
  cases ho : mlookup s.owners k with
  | none => simpa [clear, ho] using hs
  | some ow =>
    by_cases hc : ow.contextId = c
    · have hcl : clear s k c =
          { ow.storageSet.foldl dereference s with
            owners := merase (ow.storageSet.foldl dereference s).owners k,
            contexts := merase (ow.storageSet.foldl dereference s).contexts c } := by
        simp [clear, ho, hc]
      rw [hcl]
      apply sinv_clear_fold ow.storageSet s k c hs
      have how : (⟨c, ow.storageSet⟩ : Owner) = ow := by
        rw [← hc]
      rw [how]
      exact ho
    · simpa [clear, ho, hc] using hs

theorem sinv_of_goodReach {s : RegState} (h : GoodReach s) : SInv s := by
  induction h with
  | init => exact sinv_init
  | step_add s wc c o _ ih => exact sinv_add s wc c o ih
  | step_remove s wc c id _ hgood ih => exact sinv_remove s wc c id ih hgood
  | step_clear s k c _ ih => exact sinv_clear s k c ih

/-- C1, counterexample.  A reachable state in which handle 1's stored
live-reference-count is 1 while 2 distinct owner records still contain it:
after three owners register objX, E1 removes the same handle twice; the
second remove passes the owner/context check, skips the membership check
and decrements the count belonging to E2 and E3. -/
theorem refcount_invariant_counterexample :
    Reach cexR2 ∧
    storageCount cexR2 1 = 1 ∧
    ownersHolding cexR2 1 = 2 ∧
    storageCount cexR2 1 ≠ (ownersHolding cexR2 1 : Int) := by
  refine ⟨?_, by decide, by decide, by decide⟩
  exact Reach.step_remove _ wcP1 100 1
    (Reach.step_remove _ wcP1 100 1
      (Reach.step_add _ wcE3 300 7
        (Reach.step_add _ wcE2 200 7
          (Reach.step_add _ wcP1 100 7 Reach.init))))

/-- C1, amended.  In every state reachable by sequences of `add`, `remove`
and `clear` in which each `remove` that passes the owner-and-context check
names a handle currently in that owner's set, every handle's stored
live-reference-count equals the number of distinct owner records whose
referenced set contains it (an absent store entry counting as zero). -/
theorem refcount_invariant_goodTraces (s : RegState) (h : GoodReach s) (id : Nat) :
    storageCount s id = (ownersHolding s id : Int) :=
  (sinv_of_goodReach h).counts id

/-- C1, witness: the invariant evaluated at the two-owner state `cexA2`. -/
theorem refcount_invariant_goodTraces_witness :
    storageCount cexA2 1 = (ownersHolding cexA2 1 : Int) :=
  refcount_invariant_goodTraces cexA2
    (GoodReach.step_add _ wcE2 200 7
      (GoodReach.step_add _ wcP1 100 7 GoodReach.init)) 1
